import Mathlib

/-!
Verification development for the mechain-zk-wallet repository.

Shallow embedding of the JavaScript sources:
* `public-key-tree.js` (`getPublicKeyTreeData`): the whitelist Merkle-tree
  sibling-path protocol, embedded over abstract on-chain accessors
  `L : List Char → ℕ` (key string to node index) and `M : ℤ → V` (node index
  to stored value).
* `utils.js` (`concatenateThenHash`): hash selection between MiMC and SHA.
* `contractUtils.js` (`decryptEventLog`, `transfer`): event-log decryption and
  the compliance ERC-20 transfer; external collaborators (hash primitives,
  the El-Gamal cipher, the commitment Merkle-tree service, the ZoKrates
  toolchain and the ledger) are abstract parameters, and observable external
  effects are recorded in an explicit action trace.
* The Edwards point codec and the modular square root (`elgamal.js`,
  `number-theory.js`) are not part of the provided sources; they are modelled
  from the specification, as marked on each such definition.

JavaScript numbers that may go negative are modelled as `ℤ` with
`Int.fdiv` for `Math.floor` of a halved value; BigInt values are `ℕ`.
Hex strings are `List Char`.
-/

/-! ## JavaScript string helpers (`toString(16)` and `padStart`) -/

/-- Base-16 digits of `n`, least significant first, with explicit fuel.
Faithful model of the digit loop behind JavaScript `BigInt.toString(16)`
(lowercase hex, no leading zeros). The fuel only needs `n ≤ fuel`. -/
def jsHexAux : ℕ → ℕ → List Char
  | 0, _ => []
  | fuel + 1, n => if n = 0 then [] else Nat.digitChar (n % 16) :: jsHexAux fuel (n / 16)

/-- JavaScript `n.toString(16)` for a nonnegative BigInt `n`: most significant
digit first, and the single digit `'0'` for zero. -/
def jsToStringBase16 (n : ℕ) : List Char :=
  if n = 0 then ['0'] else (jsHexAux n n).reverse

/-- JavaScript `s.padStart(64, '0')`. -/
def jsPadStart64 (s : List Char) : List Char :=
  List.replicate (64 - s.length) '0' ++ s

/-- The field modulus `ZOKRATES_PRIME` from `config` (the BN-254 scalar field
modulus, quoted in the `utils.js` comment on field encodings). -/
def ZOKRATES_PRIME : ℕ :=
  21888242871839275222246405745257275088548364400416034343698204186575808495617

/-! ## `public-key-tree.js` : `getPublicKeyTreeData` -/

/-- The canonicalized key string built by `getPublicKeyTreeData`:
`` `0x${(BigInt(_key) % ZOKRATES_PRIME).toString(16).padStart(64, '0')}` ``. -/
def canonicalKeyStr (rawKey : ℕ) : List Char :=
  '0' :: 'x' :: jsPadStart64 (jsToStringBase16 (rawKey % ZOKRATES_PRIME))

/-- `FIRST_LEAF_INDEX = 2 ** PUBLIC_KEY_TREE_HEIGHT - 1`, as an integer since
the JavaScript code subtracts it from an arbitrary looked-up index. -/
def firstLeafIndex (H : ℕ) : ℤ := 2 ^ H - 1

/-- Sibling index read inside the loop of `getPublicKeyTreeData`:
`s = p - 1` when `p` is even, `s = p + 1` when `p` is odd. -/
def siblingIndex (p : ℤ) : ℤ :=
  if p % 2 = 0 then p - 1 else p + 1

/-- Next (parent) index inside the loop of `getPublicKeyTreeData`:
`t = Math.floor((p - 1) / 2)` when `p` is even, `t = Math.floor(p / 2)` when
`p` is odd. `Int.fdiv` is floor division, exactly `Math.floor` of the real
quotient. -/
def nextIndex (p : ℤ) : ℤ :=
  if p % 2 = 0 then (p - 1).fdiv 2 else p.fdiv 2

/-- The loop `for (let r = PUBLIC_KEY_TREE_HEIGHT; r > 0; r--)` of
`getPublicKeyTreeData`, which stores `M(s)` at array position `r` and then
moves to the parent. Since `r` counts down, an iteration's value ends up in
front of the values of all previous iterations; `loopFill M r p acc` is the
final segment of the sibling-path array at positions `(H - r) + 1 .. H`,
given that positions after it already hold `acc`. -/
def loopFill {V : Type} (M : ℤ → V) : ℕ → ℤ → List V → List V
  | 0, _, acc => acc
  | r + 1, p, acc => loopFill M r (nextIndex p) (M (siblingIndex p) :: acc)

/-- The sibling indices read by the loop of `getPublicKeyTreeData`, in the
order the reads are issued (leaf level first). -/
def walkSiblingReads : ℕ → ℤ → List ℤ
  | 0, _ => []
  | r + 1, p => siblingIndex p :: walkSiblingReads r (nextIndex p)

/-- Error thrown by `getPublicKeyTreeData` when the key is absent from the
whitelist tree (the `KeyNotWhitelisted` failure of the spec). -/
def keyNotWhitelistedMsg : String :=
  "The public key is not added to the whitelist yet, please create a mint commitment to add the key"

/-- Result record of `getPublicKeyTreeData`. -/
structure TreeData (V : Type) where
  leafIndex : ℤ
  siblingPath : List V
deriving DecidableEq

/-- Embedding of `getPublicKeyTreeData(contractInstance, _key)` from
`public-key-tree.js`. `H` is `PUBLIC_KEY_TREE_HEIGHT`, `L` is the contract
read `L(key)` on the canonicalized key string, `M` is the contract read
`M(i)`. The walk starts from the looked-up index, fills array positions
`H, H-1, ..., 1` with sibling values and finally stores the root `M(0)` at
position `0`. -/
def getPublicKeyTreeData {V : Type} (H : ℕ) (L : List Char → ℕ) (M : ℤ → V)
    (rawKey : ℕ) : Except String (TreeData V) :=
  let key := canonicalKeyStr rawKey
  let commitmentIndex := L key
  let leafIndex : ℤ := (commitmentIndex : ℤ) - firstLeafIndex H
  if leafIndex < 0 then
    Except.error keyNotWhitelistedMsg
  else
    Except.ok ⟨leafIndex, M 0 :: loopFill M H (commitmentIndex : ℤ) []⟩

/-! Spec-side description of the sibling path (§4.5 / §3 of the spec): the
heap-indexed parent and sibling of a node, and the siblings of the nodes on
the root-to-leaf walk listed in root-to-leaf order. -/

/-- Parent of node `q` in the 0-indexed heap layout of the whitelist tree. -/
def heapParent (q : ℕ) : ℕ := (q - 1) / 2

/-- Sibling of node `q ≥ 1` in the 0-indexed heap layout. -/
def heapSibling (q : ℕ) : ℕ :=
  if q % 2 = 0 then q - 1 else q + 1

/-- Sibling values of the nodes on the root-to-leaf walk ending at node `n`,
in root-to-leaf order: entry `k` (0-based) is the sibling value of the
ancestor of `n` lying `H - 1 - k` parent steps above `n`. -/
def specSiblingEntries {V : Type} (M : ℤ → V) (H n : ℕ) : List V :=
  (List.range H).map fun k => M ((heapSibling (heapParent^[H - 1 - k] n) : ℕ) : ℤ)

/-! ## Edwards point codec and modular square root (modelled from the spec) -/

/-- Modelled from the spec: `squareRootModPrime(n, p)` of `number-theory.js`
(§4.2), which is not under `src/`. Returns a canonical square root of `n`
modulo `p` — here the root with the smallest representative, a choice the
spec explicitly allows — and `none` when no root exists (the `NonResidue`
failure). -/
def squareRootModPrime (p : ℕ) (n : ZMod p) : Option (ZMod p) :=
  ((List.range p).find? fun r : ℕ => decide (((r : ZMod p)) * ((r : ZMod p)) = n)).map
    fun r : ℕ => ((r : ZMod p))

/-- Modelled from the spec: `edwardsCompress(point)` of `elgamal.js` (§3,
§4.1), which is not under `src/`. Packing convention fixed per §3: the
y-coordinate in the low bits and one sign bit — the parity of x — in the top
bit (bit 255). Fails (`InvalidPoint`) when the point does not satisfy the
twisted Edwards curve equation `a·x² + y² = 1 + d·x²·y²`. -/
def edwardsCompress (p : ℕ) (a d : ZMod p) (P : ZMod p × ZMod p) : Option ℕ :=
  if a * P.1 * P.1 + P.2 * P.2 = 1 + d * P.1 * P.1 * P.2 * P.2 then
    some ((P.1.val % 2) * 2 ^ 255 + P.2.val)
  else none

/-- Modelled from the spec: `edwardsDecompress(value)` of `elgamal.js`
(§4.1), which is not under `src/`. Extracts the sign bit (bit 255) and the
candidate y; derives `x² = (y² - 1) / (d·y² - a)` by the curve-equation
rearrangement; takes a modular square root, failing (`InvalidEncoding`) when
none exists; of the two roots it selects the one whose parity matches the
stored sign bit. -/
def edwardsDecompress (p : ℕ) (a d : ZMod p) (v : ℕ) : Option (ZMod p × ZMod p) :=
  match squareRootModPrime p
      ((((v % 2 ^ 255 : ℕ) : ZMod p) * ((v % 2 ^ 255 : ℕ) : ZMod p) - 1) *
        (d * ((v % 2 ^ 255 : ℕ) : ZMod p) * ((v % 2 ^ 255 : ℕ) : ZMod p) - a)⁻¹) with
  | none => none
  | some r => some (if r.val % 2 = v / 2 ^ 255 then r else -r, ((v % 2 ^ 255 : ℕ) : ZMod p))

/-! ## `utils.js` : `concatenateThenHash` -/

/-- The branch condition of `concatenateThenHash`:
`config.HASH_TYPE === 'mimc' || process.env.HASH_TYPE === 'mimc'`. It is a
function of the configuration alone, not of the hashed items. -/
def usesMimc (cfgHashType : String) (envHashType : Option String) : Bool :=
  cfgHashType = "mimc" || envHashType = some "mimc"

/-- Embedding of `concatenateThenHash(...items)` from `utils.js`. The two
external hash primitives from `zkp-utils` are parameters: `mimcHashFn` is
`mimcHash(..., 'ALT_BN_254')` on the items coerced to BigInt (items are
modelled as their numeric values, which is what `BigInt(ensure0x(e))`
produces), `shaHashFn` is `shaHash(...items)`. The MiMC result is re-encoded
as `` `0x${hash.toString(16).padStart(64, '0')}` ``; the SHA result is
returned as is. -/
def concatenateThenHash (cfgHashType : String) (envHashType : Option String)
    (mimcHashFn : List ℕ → ℕ) (shaHashFn : List ℕ → List Char)
    (items : List ℕ) : List Char :=
  if cfgHashType = "mimc" ∨ envHashType = some "mimc" then
    '0' :: 'x' :: jsPadStart64 (jsToStringBase16 (mimcHashFn items))
  else shaHashFn items

/-! ## `contractUtils.js` : `decryptEventLog` -/

/-- Error thrown by `decryptEventLog` for a transaction type that is not in
`config.ALLOWED_DECRYPTION_TYPES`. -/
def unknownTypeMsg : String := "Unknown transaction type for decryption"

/-- Embedding of `decryptEventLog(eventLog, { type, guessers })` from
`contractUtils.js`. `ALLOWED_DECRYPTION_TYPES` maps a transaction type to its
configured `(PUBLIC_INPUTS_START_POSITION, PUBLIC_INPUTS_END_POSITION)` pair
(`none` models a falsy config entry; the config module is not under `src/`,
so the per-type offset table is a parameter per §6 of the spec). The imported
El-Gamal primitives `edwardsDecompress`, `dec` and `bruteForce` are the
parameters `decompressFn`, `decFn` and `bruteForceFn`; `publicInputs` is the
event log's public-input array. The loop decompresses entries
`start, ..., end - 1`, decrypts the collected point list, and brute-forces
the `i`-th decrypted point with `guessers[i]`. -/
def decryptEventLog {Pt Msg R G : Type}
    (ALLOWED_DECRYPTION_TYPES : String → Option (ℕ × ℕ))
    (decompressFn : ℕ → Pt) (decFn : List Pt → List Msg)
    (bruteForceFn : Msg → G → R)
    (publicInputs : ℕ → ℕ) (type : String) (guessers : ℕ → G) :
    Except String (List R) :=
  match ALLOWED_DECRYPTION_TYPES type with
  | none => Except.error unknownTypeMsg
  | some se =>
    let c := (List.range' se.1 (se.2 - se.1)).map fun i => decompressFn (publicInputs i)
    let m := decFn c
    Except.ok ((m.enum).map fun im => bruteForceFn im.2 (guessers im.1))

/-! ## `contractUtils.js` : the compliance ERC-20 `transfer` -/

/-- Observable external effects of `transfer`, recorded in order. `chainRead`
is a read-only contract call (tree-data or sibling-path retrieval, event
query); the other three are the expensive operations the implicit claims are
about: witness computation, proof generation, and the state-changing
on-chain `transferRC` transaction. -/
inductive ChainAction where
  | chainRead : ChainAction
  | computeWitness : ChainAction
  | generateProof : ChainAction
  | sendTransaction : ChainAction
deriving DecidableEq

/-- An input commitment handed to `transfer` (`value`, `salt`, `commitment`,
`commitmentIndex`; hex strings are modelled by their numeric values). -/
structure InputCommitment where
  value : ℕ
  salt : ℕ
  commitment : ℕ
  commitmentIndex : ℕ

/-- An output commitment handed to `transfer` (`value` and `salt`). -/
structure OutputCommitment where
  value : ℕ
  salt : ℕ

/-- External collaborators of `transfer`, as abstract parameters: the
`zkp-utils` hashes, the El-Gamal `enc`, the random secret drawn by
`randomHex(31)`, the `PublicKeyTree` accessors of the shield contract at the
times of the two `getPublicKeyTreeData` calls (two snapshots, since the two
reads are separate awaited calls), and the commitment Merkle-tree service's
`getSiblingPath` keyed by commitment and index. -/
structure TransferEnv (Pt : Type) where
  H : ℕ
  shaHashFn : ℕ → ℕ
  concatHashFn : List ℕ → ℕ
  erc20Address : ℕ
  randomSecret : ℕ
  encFn : ℕ → List ℕ → List Pt
  senderTreeL : List Char → ℕ
  senderTreeM : ℤ → ℕ
  receiverTreeL : List Char → ℕ
  receiverTreeM : ℤ → ℕ
  getSiblingPath : ℕ → ℕ → List ℕ

/-- Error thrown by `transfer` when an input or output value sum exceeds
`0xffffffffff`. -/
def valuesTooLargeMsg : String := "Input commitments values are too large"

/-- Error thrown by `transfer` when the sender and receiver public-key tree
roots differ. -/
def rootsMismatchMsg : String := "Roots for sender and receiver public key are not the same."

/-- Error thrown by `transfer` when the two input commitments' sibling paths
do not share a common root. -/
def sibRootsMismatchMsg : String := "The sibling paths do not share a common root."

/-- Embedding of the compliance ERC-20 `transfer` from `contractUtils.js`, at
the granularity of its checks and external effects. In source order: the
input/output value-sum guard; the pure hash and encryption computations; the
two whitelist tree-data fetches and the root comparison
(`senderPublicKeyTreeData.siblingPath[0] !== receiverPublicKeyTreeData.siblingPath[0]`);
the two commitment sibling-path fetches and their root comparison
(`inputCommitments[0].siblingPath[0] !== inputCommitments[1].siblingPath[0]`);
then witness computation, proof generation, the `transferRC` transaction and
the event query. The first component is the trace of external actions up to
the point the function returned or threw. -/
def transfer {Pt : Type} (env : TransferEnv Pt) (in0 in1 : InputCommitment)
    (out0 out1 : OutputCommitment) (receiverPublicKey senderSecretKey : ℕ) :
    List ChainAction × Except String Unit :=
  if in0.value + in1.value > 0xffffffffff ∨ out0.value + out1.value > 0xffffffffff then
    ([], Except.error valuesTooLargeMsg)
  else
    let senderPublicKey := env.shaHashFn senderSecretKey
    let _nullifier0 := env.concatHashFn [in0.salt, senderSecretKey]
    let _nullifier1 := env.concatHashFn [in1.salt, senderSecretKey]
    let _outCommitment0 :=
      env.concatHashFn [env.erc20Address, out0.value, receiverPublicKey, out0.salt]
    let _outCommitment1 :=
      env.concatHashFn [env.erc20Address, out1.value, senderPublicKey, out1.salt]
    let _encryption :=
      env.encFn env.randomSecret [out0.value, senderPublicKey, receiverPublicKey]
    match getPublicKeyTreeData env.H env.senderTreeL env.senderTreeM senderPublicKey with
    | Except.error e => ([ChainAction.chainRead], Except.error e)
    | Except.ok senderTD =>
      match getPublicKeyTreeData env.H env.receiverTreeL env.receiverTreeM
          receiverPublicKey with
      | Except.error e =>
        ([ChainAction.chainRead, ChainAction.chainRead], Except.error e)
      | Except.ok receiverTD =>
        if senderTD.siblingPath.head? ≠ receiverTD.siblingPath.head? then
          ([ChainAction.chainRead, ChainAction.chainRead], Except.error rootsMismatchMsg)
        else
          let sib0 := env.getSiblingPath in0.commitment in0.commitmentIndex
          let sib1 := env.getSiblingPath in1.commitment in1.commitmentIndex
          if sib0.head? ≠ sib1.head? then
            ([ChainAction.chainRead, ChainAction.chainRead, ChainAction.chainRead,
              ChainAction.chainRead], Except.error sibRootsMismatchMsg)
          else
            ([ChainAction.chainRead, ChainAction.chainRead, ChainAction.chainRead,
              ChainAction.chainRead, ChainAction.computeWitness,
              ChainAction.generateProof, ChainAction.sendTransaction,
              ChainAction.chainRead], Except.ok ())

/-! ## theorems about `getPublicKeyTreeData` -/

theorem loopFill_eq_walk {V : Type} (M : ℤ → V) :
    ∀ (H : ℕ) (p : ℤ) (acc : List V),
      loopFill M H p acc = (walkSiblingReads H p).reverse.map M ++ acc := by
  intro H
  induction H with
  | zero => intro p acc; simp [loopFill, walkSiblingReads]
  | succ H ih =>
    intro p acc
    simp only [loopFill, walkSiblingReads, ih, List.reverse_cons, List.map_append,
      List.map_cons, List.map_nil, List.append_assoc, List.cons_append, List.nil_append]

theorem walkSiblingReads_closed :
    ∀ (H : ℕ) (p : ℤ),
      walkSiblingReads H p = (List.range H).map fun i => siblingIndex (nextIndex^[i] p) := by
  intro H
  induction H with
  | zero => intro p; simp [walkSiblingReads]
  | succ H ih =>
    intro p
    rw [walkSiblingReads, ih, List.range_succ_eq_map]
    simp [Function.iterate_succ_apply, Function.comp]

theorem walkSiblingReads_length (H : ℕ) (p : ℤ) :
    (walkSiblingReads H p).length = H := by
  rw [walkSiblingReads_closed]; simp

theorem siblingIndex_natCast {n : ℕ} (h : 1 ≤ n) :
    siblingIndex (n : ℤ) = ((heapSibling n : ℕ) : ℤ) := by
  unfold siblingIndex heapSibling
  have hm : ((n : ℤ) % 2 = 0) ↔ (n % 2 = 0) := by omega
  by_cases he : n % 2 = 0
  · rw [if_pos (hm.mpr he), if_pos he]; omega
  · rw [if_neg (fun hc => he (hm.mp hc)), if_neg he]; omega

theorem nextIndex_natCast {n : ℕ} (h : 1 ≤ n) :
    nextIndex (n : ℤ) = ((heapParent n : ℕ) : ℤ) := by
  unfold nextIndex heapParent
  have hm : ((n : ℤ) % 2 = 0) ↔ (n % 2 = 0) := by omega
  by_cases he : n % 2 = 0
  · rw [if_pos (hm.mpr he), Int.fdiv_eq_ediv _ (by omega)]; omega
  · rw [if_neg (fun hc => he (hm.mp hc)), Int.fdiv_eq_ediv _ (by omega)]; omega

theorem heapParent_pow_ge {H n : ℕ} (h : 2 ^ H - 1 ≤ n) :
    ∀ i, i ≤ H → 2 ^ (H - i) - 1 ≤ heapParent^[i] n := by
  intro i
  induction i with
  | zero => intro _; simpa using h
  | succ i ih =>
    intro hle
    have hi : 2 ^ (H - i) - 1 ≤ heapParent^[i] n := ih (by omega)
    rw [Function.iterate_succ_apply']
    have hHi : H - i = (H - (i + 1)) + 1 := by omega
    rw [hHi] at hi
    have hpq : heapParent (heapParent^[i] n) = (heapParent^[i] n - 1) / 2 := rfl
    rw [hpq]
    have := Nat.one_le_two_pow (n := H - (i + 1))
    rw [pow_succ] at hi
    omega

theorem walkSiblingReads_spec {H n : ℕ} (h : 2 ^ H - 1 ≤ n) :
    walkSiblingReads H (n : ℤ) =
      (List.range H).map fun i => ((heapSibling (heapParent^[i] n) : ℕ) : ℤ) := by
  rw [walkSiblingReads_closed]
  apply List.map_congr_left
  intro i hi
  rw [List.mem_range] at hi
  have hcast : ∀ j, j ≤ H - 1 → nextIndex^[j] (n : ℤ) = ((heapParent^[j] n : ℕ) : ℤ) := by
    intro j
    induction j with
    | zero => intro _; rfl
    | succ j ih =>
      intro hle
      rw [Function.iterate_succ_apply', Function.iterate_succ_apply', ih (by omega)]
      have hb : 2 ^ (H - j) - 1 ≤ heapParent^[j] n := heapParent_pow_ge h j (by omega)
      have h1 : 1 ≤ heapParent^[j] n := by
        have h2 : 2 ≤ 2 ^ (H - j) := by
          have : 1 ≤ H - j := by omega
          calc 2 = 2 ^ 1 := by norm_num
          _ ≤ 2 ^ (H - j) := Nat.pow_le_pow_right (by norm_num) this
        omega
      exact nextIndex_natCast h1
  have hj : nextIndex^[i] (n : ℤ) = ((heapParent^[i] n : ℕ) : ℤ) := hcast i (by omega)
  rw [hj]
  have hb : 2 ^ (H - i) - 1 ≤ heapParent^[i] n := heapParent_pow_ge h i (by omega)
  have h1 : 1 ≤ heapParent^[i] n := by
    have h2 : 2 ≤ 2 ^ (H - i) := by
      have : 1 ≤ H - i := by omega
      calc 2 = 2 ^ 1 := by norm_num
      _ ≤ 2 ^ (H - i) := Nat.pow_le_pow_right (by norm_num) this
    omega
  exact siblingIndex_natCast h1

theorem walk_reverse_spec {V : Type} (M : ℤ → V) {H n : ℕ} (h : 2 ^ H - 1 ≤ n) :
    (walkSiblingReads H (n : ℤ)).reverse.map M = specSiblingEntries M H n := by
  rw [walkSiblingReads_spec h, ← List.map_reverse, List.range_eq_range',
    List.reverse_range']
  unfold specSiblingEntries
  simp only [List.map_map]
  apply List.map_congr_left
  intro k hk
  simp [Function.comp]

theorem heapParent_le (q : ℕ) : heapParent q ≤ q := by
  have : heapParent q = (q - 1) / 2 := rfl
  omega

theorem heapParent_iterate_le (q : ℕ) : ∀ i, heapParent^[i] q ≤ q := by
  intro i
  induction i with
  | zero => simp
  | succ i ih =>
    rw [Function.iterate_succ_apply']
    exact le_trans (heapParent_le _) ih

theorem heapSibling_le (q : ℕ) : heapSibling q ≤ q + 1 := by
  unfold heapSibling
  split <;> omega

theorem specSibling_ne {H n : ℕ} (h : 2 ^ H - 1 ≤ n) :
    ∀ i < H, heapSibling (heapParent^[i] n) ≠ n := by
  intro i hi
  match i with
  | 0 =>
    have hn : 1 ≤ n := by
      have h2 : 2 ≤ 2 ^ H := by
        calc 2 = 2 ^ 1 := by norm_num
        _ ≤ 2 ^ H := Nat.pow_le_pow_right (by norm_num) (by omega)
      omega
    simp only [Function.iterate_zero, id_eq]
    unfold heapSibling
    split <;> omega
  | j + 1 =>
    have hH : 2 ≤ H := by omega
    have hn : 3 ≤ n := by
      have h2 : 4 ≤ 2 ^ H := by
        calc 4 = 2 ^ 2 := by norm_num
        _ ≤ 2 ^ H := Nat.pow_le_pow_right (by norm_num) hH
      omega
    have hq : heapParent^[j + 1] n ≤ heapParent n := by
      rw [Function.iterate_succ_apply]
      exact heapParent_iterate_le (heapParent n) j
    have hp : heapParent n = (n - 1) / 2 := rfl
    have hs := heapSibling_le (heapParent^[j + 1] n)
    omega

theorem getPublicKeyTreeData_def {V : Type} (H : ℕ) (L : List Char → ℕ) (M : ℤ → V)
    (rawKey : ℕ) :
    getPublicKeyTreeData H L M rawKey =
      if ((L (canonicalKeyStr rawKey) : ℤ) - firstLeafIndex H) < 0 then
        Except.error keyNotWhitelistedMsg
      else
        Except.ok ⟨(L (canonicalKeyStr rawKey) : ℤ) - firstLeafIndex H,
          M 0 :: loopFill M H ((L (canonicalKeyStr rawKey) : ℤ)) []⟩ := rfl

theorem firstLeafIndex_cast (H : ℕ) : firstLeafIndex H = ((2 ^ H - 1 : ℕ) : ℤ) := by
  unfold firstLeafIndex
  have : 1 ≤ 2 ^ H := Nat.one_le_two_pow
  push_cast [this]
  ring

/-! ## claim theorems for the whitelist sibling-path protocol -/

/-- C2: for every whitelisted key (looked-up index at or past
`firstLeafIndex`), `getPublicKeyTreeData` returns the path whose entry 0 is
the root value `M 0` and whose following `H` entries are the sibling values
of the nodes on the root-to-leaf walk, in root-to-leaf order
(`specSiblingEntries`); the path has exactly `H + 1` entries, and the queried
node's own index is never among the sibling indices read. -/
theorem getPublicKeyTreeData_root_to_leaf_order {V : Type} (H : ℕ)
    (L : List Char → ℕ) (M : ℤ → V) (rawKey : ℕ)
    (h : 2 ^ H - 1 ≤ L (canonicalKeyStr rawKey)) :
    getPublicKeyTreeData H L M rawKey =
      Except.ok ⟨(L (canonicalKeyStr rawKey) : ℤ) - firstLeafIndex H,
        M 0 :: specSiblingEntries M H (L (canonicalKeyStr rawKey))⟩
    ∧ (M 0 :: specSiblingEntries M H (L (canonicalKeyStr rawKey))).length = H + 1
    ∧ ∀ i < H,
        heapSibling (heapParent^[i] (L (canonicalKeyStr rawKey)))
          ≠ L (canonicalKeyStr rawKey) := by
  refine ⟨?_, ?_, specSibling_ne h⟩
  · rw [getPublicKeyTreeData_def]
    have hnot : ¬ ((L (canonicalKeyStr rawKey) : ℤ) - firstLeafIndex H < 0) := by
      rw [firstLeafIndex_cast]
      have := h
      omega
    rw [if_neg hnot, loopFill_eq_walk, List.append_nil, walk_reverse_spec M h]
  · unfold specSiblingEntries
    simp

/-- C3: `getPublicKeyTreeData` fails with the `KeyNotWhitelisted` error
exactly when the looked-up index minus `firstLeafIndex = 2^H - 1` is
negative; whenever the looked-up index is at least `firstLeafIndex` it
returns the leaf index `L(key) - firstLeafIndex` together with the sibling
path. -/
theorem getPublicKeyTreeData_error_iff {V : Type} (H : ℕ) (L : List Char → ℕ)
    (M : ℤ → V) (rawKey : ℕ) :
    (getPublicKeyTreeData H L M rawKey = Except.error keyNotWhitelistedMsg ↔
       (L (canonicalKeyStr rawKey) : ℤ) - firstLeafIndex H < 0)
    ∧ (firstLeafIndex H ≤ (L (canonicalKeyStr rawKey) : ℤ) →
       getPublicKeyTreeData H L M rawKey =
         Except.ok ⟨(L (canonicalKeyStr rawKey) : ℤ) - firstLeafIndex H,
           M 0 :: loopFill M H ((L (canonicalKeyStr rawKey) : ℤ)) []⟩) := by
  constructor
  · rw [getPublicKeyTreeData_def]
    split
    · simp_all
    · simp_all
  · intro hle
    rw [getPublicKeyTreeData_def, if_neg (by omega)]

/-- C4: when the walk runs (looked-up index at least `firstLeafIndex`), the
sibling reads are exactly `H` in number; the `i`-th read (starting from the
looked-up node index) reads `siblingIndex` of the `i`-fold `nextIndex`
iterate, where `siblingIndex p` is `p - 1` for even `p` and `p + 1` for odd
`p`, and `nextIndex p` is `⌊(p-1)/2⌋` (`Int.fdiv`) for even `p` and
`⌊p/2⌋` for odd `p`; the returned path is the root followed by the reversed
read list mapped through `M`. -/
theorem getPublicKeyTreeData_walk_arithmetic {V : Type} (H : ℕ)
    (L : List Char → ℕ) (M : ℤ → V) (rawKey : ℕ)
    (h : firstLeafIndex H ≤ (L (canonicalKeyStr rawKey) : ℤ)) :
    getPublicKeyTreeData H L M rawKey =
      Except.ok ⟨(L (canonicalKeyStr rawKey) : ℤ) - firstLeafIndex H,
        M 0 :: (walkSiblingReads H ((L (canonicalKeyStr rawKey) : ℤ))).reverse.map M⟩
    ∧ walkSiblingReads H ((L (canonicalKeyStr rawKey) : ℤ)) =
        (List.range H).map
          (fun i => siblingIndex (nextIndex^[i] ((L (canonicalKeyStr rawKey) : ℤ))))
    ∧ (walkSiblingReads H ((L (canonicalKeyStr rawKey) : ℤ))).length = H := by
  refine ⟨?_, walkSiblingReads_closed H _, walkSiblingReads_length H _⟩
  rw [getPublicKeyTreeData_def, if_neg (by omega), loopFill_eq_walk, List.append_nil]

/-- C1 counterexample: with `H = 3`, a lookup returning raw index 9 and the
identity snapshot `M = id`, `getPublicKeyTreeData` returns leaf index 2 and
the sibling path `[M 0, M 2, M 3, M 10] = [0, 2, 3, 10]`, not the
`[root, M 10, M 3, M 1] = [0, 10, 3, 1]` stated by the claim. -/
theorem getPublicKeyTreeData_concrete_claim_false :
    getPublicKeyTreeData 3 (fun _ => 9) (id : ℤ → ℤ) 0 =
      Except.ok ⟨2, [0, 2, 3, 10]⟩
    ∧ getPublicKeyTreeData 3 (fun _ => 9) (id : ℤ → ℤ) 0 ≠
      Except.ok ⟨2, [0, 10, 3, 1]⟩ := by
  have h1 : getPublicKeyTreeData 3 (fun _ => 9) (id : ℤ → ℤ) 0 =
      Except.ok ⟨2, [0, 2, 3, 10]⟩ := rfl
  refine ⟨h1, ?_⟩
  rw [h1]
  intro hc
  simp only [Except.ok.injEq, TreeData.mk.injEq] at hc
  simp at hc

/-- C1 (amended): with `H = 3` and a key looked up at raw tree position 9,
`getPublicKeyTreeData` returns `leafIndex = 2` and the 4-entry sibling path
`[root, M 2, M 3, M 10]`; equivalently the siblings collected from the leaf
upward are `M 10`, `M 3`, `M 2`, stored at positions 3, 2, 1. -/
theorem getPublicKeyTreeData_concrete_amended {V : Type} (L : List Char → ℕ)
    (M : ℤ → V) (rawKey : ℕ) (h : L (canonicalKeyStr rawKey) = 9) :
    getPublicKeyTreeData 3 L M rawKey = Except.ok ⟨2, [M 0, M 2, M 3, M 10]⟩ := by
  rw [getPublicKeyTreeData_def, h]
  have hfill : loopFill M 3 ((9 : ℕ) : ℤ) [] = [M 2, M 3, M 10] := rfl
  rw [if_neg (by norm_num [firstLeafIndex]), hfill]
  norm_num [firstLeafIndex]

/-! ## claim theorem for key canonicalization (C6) -/

theorem jsHexAux_length_le : ∀ (fuel n len : ℕ), n < 16 ^ len →
    (jsHexAux fuel n).length ≤ len := by
  intro fuel
  induction fuel with
  | zero => intro n len _; simp [jsHexAux]
  | succ fuel ih =>
    intro n len hn
    unfold jsHexAux
    by_cases h0 : n = 0
    · simp [h0]
    · rw [if_neg h0]
      have hlen : 1 ≤ len := by
        by_contra hc
        have : len = 0 := by omega
        rw [this] at hn
        simp at hn
        omega
      have hdiv : n / 16 < 16 ^ (len - 1) := by
        rw [Nat.div_lt_iff_lt_mul (by norm_num)]
        calc n < 16 ^ len := hn
        _ = 16 ^ (len - 1) * 16 := by
            rw [← pow_succ]
            congr 1
            omega
      have := ih (n / 16) (len - 1) hdiv
      simp only [List.length_cons]
      omega

theorem jsToStringBase16_length_le {n len : ℕ} (h1 : 1 ≤ len) (h : n < 16 ^ len) :
    (jsToStringBase16 n).length ≤ len := by
  unfold jsToStringBase16
  split
  · simpa using h1
  · rw [List.length_reverse]
    exact jsHexAux_length_le n n len h

theorem jsPadStart64_length {s : List Char} (h : s.length ≤ 64) :
    (jsPadStart64 s).length = 64 := by
  unfold jsPadStart64
  simp only [List.length_append, List.length_replicate]
  omega

/-- C6: `getPublicKeyTreeData` performs its whitelist lookup on the canonical
form of the key: the raw key reduced modulo `ZOKRATES_PRIME` and re-encoded
as a `0x`-prefixed 64-hex-character string; it depends on the lookup function
only through its value at that canonical string, two raw keys congruent
modulo `ZOKRATES_PRIME` give identical results, and the canonical string has
length 66 (the `0x` prefix plus exactly 64 hex characters). -/
theorem getPublicKeyTreeData_canonicalization {V : Type} (H : ℕ) (M : ℤ → V)
    (rawKey : ℕ) :
    (∀ L₁ L₂ : List Char → ℕ,
        L₁ (canonicalKeyStr rawKey) = L₂ (canonicalKeyStr rawKey) →
        getPublicKeyTreeData H L₁ M rawKey = getPublicKeyTreeData H L₂ M rawKey)
    ∧ (∀ (L : List Char → ℕ) (k₂ : ℕ),
        rawKey % ZOKRATES_PRIME = k₂ % ZOKRATES_PRIME →
        getPublicKeyTreeData H L M rawKey = getPublicKeyTreeData H L M k₂)
    ∧ canonicalKeyStr rawKey =
        '0' :: 'x' :: jsPadStart64 (jsToStringBase16 (rawKey % ZOKRATES_PRIME))
    ∧ (canonicalKeyStr rawKey).length = 66 := by
  refine ⟨?_, ?_, rfl, ?_⟩
  · intro L₁ L₂ hL
    rw [getPublicKeyTreeData_def, getPublicKeyTreeData_def, hL]
  · intro L k₂ hmod
    have hstr : canonicalKeyStr rawKey = canonicalKeyStr k₂ := by
      unfold canonicalKeyStr
      rw [hmod]
    rw [getPublicKeyTreeData_def, getPublicKeyTreeData_def, hstr]
  · have hp : ZOKRATES_PRIME < 16 ^ 64 := by decide
    have hmod : rawKey % ZOKRATES_PRIME < 16 ^ 64 :=
      lt_trans (Nat.mod_lt _ (by decide)) hp
    have hlen : (jsToStringBase16 (rawKey % ZOKRATES_PRIME)).length ≤ 64 :=
      jsToStringBase16_length_le (by norm_num) hmod
    unfold canonicalKeyStr
    simp only [List.length_cons]
    rw [jsPadStart64_length hlen]

/-! ## witnesses for the whitelist claims -/

theorem getPublicKeyTreeData_root_to_leaf_order_witness :
    2 ^ 3 - 1 ≤ 9 ∧
    getPublicKeyTreeData 3 (fun _ => 9) (id : ℤ → ℤ) 0 =
      Except.ok ⟨((9 : ℕ) : ℤ) - firstLeafIndex 3,
        (id : ℤ → ℤ) 0 :: specSiblingEntries (id : ℤ → ℤ) 3 9⟩ :=
  ⟨by decide,
    (getPublicKeyTreeData_root_to_leaf_order 3 (fun _ => 9) id 0 (by decide)).1⟩

theorem getPublicKeyTreeData_error_iff_witness :
    (firstLeafIndex 3 ≤ ((8 : ℕ) : ℤ)
      ∧ getPublicKeyTreeData 3 (fun _ => 8) (id : ℤ → ℤ) 1 =
          Except.ok ⟨((8 : ℕ) : ℤ) - firstLeafIndex 3,
            (id : ℤ → ℤ) 0 :: loopFill (id : ℤ → ℤ) 3 ((8 : ℕ) : ℤ) []⟩)
    ∧ getPublicKeyTreeData 3 (fun _ => 5) (id : ℤ → ℤ) 2 =
        Except.error keyNotWhitelistedMsg :=
  ⟨⟨by norm_num [firstLeafIndex],
      (getPublicKeyTreeData_error_iff 3 (fun _ => 8) id 1).2
        (by norm_num [firstLeafIndex])⟩,
    (getPublicKeyTreeData_error_iff 3 (fun _ => 5) id 2).1.mpr
      (by norm_num [firstLeafIndex])⟩

theorem getPublicKeyTreeData_walk_arithmetic_witness :
    firstLeafIndex 3 ≤ ((11 : ℕ) : ℤ) ∧
    getPublicKeyTreeData 3 (fun _ => 11) (id : ℤ → ℤ) 3 =
      Except.ok ⟨((11 : ℕ) : ℤ) - firstLeafIndex 3,
        (id : ℤ → ℤ) 0 :: (walkSiblingReads 3 ((11 : ℕ) : ℤ)).reverse.map id⟩ :=
  ⟨by norm_num [firstLeafIndex],
    (getPublicKeyTreeData_walk_arithmetic 3 (fun _ => 11) id 3
      (by norm_num [firstLeafIndex])).1⟩

theorem getPublicKeyTreeData_concrete_amended_witness :
    (fun _ : List Char => 9) (canonicalKeyStr 4) = 9 ∧
    getPublicKeyTreeData 3 (fun _ => 9) (id : ℤ → ℤ) 4 =
      Except.ok ⟨2, [0, 2, 3, 10]⟩ :=
  ⟨rfl, getPublicKeyTreeData_concrete_amended (fun _ => 9) id 4 rfl⟩

theorem getPublicKeyTreeData_canonicalization_witness :
    (ZOKRATES_PRIME + 7) % ZOKRATES_PRIME = 7 % ZOKRATES_PRIME ∧
    getPublicKeyTreeData 3 (fun _ => 12) (id : ℤ → ℤ) (ZOKRATES_PRIME + 7) =
      getPublicKeyTreeData 3 (fun _ => 12) (id : ℤ → ℤ) 7 :=
  ⟨by decide,
    (getPublicKeyTreeData_canonicalization 3 (id : ℤ → ℤ) (ZOKRATES_PRIME + 7)).2.1
      (fun _ => 12) 7 (by decide)⟩

/-! ## theorems about the Edwards point codec (C5) -/

theorem squareRootModPrime_sq {p : ℕ} {n s : ZMod p}
    (h : squareRootModPrime p n = some s) : s * s = n := by
  unfold squareRootModPrime at h
  rw [Option.map_eq_some'] at h
  obtain ⟨r, hr, hrs⟩ := h
  have h1 := List.find?_some hr
  simp only [decide_eq_true_eq] at h1
  rw [← hrs]
  exact h1

theorem squareRootModPrime_of_sq {p : ℕ} [NeZero p] {n : ZMod p} (x : ZMod p)
    (hx : x * x = n) : ∃ s, squareRootModPrime p n = some s ∧ s * s = n := by
  unfold squareRootModPrime
  cases hf : (List.range p).find? fun r : ℕ => decide (((r : ZMod p)) * ((r : ZMod p)) = n) with
  | none =>
    exfalso
    rw [List.find?_eq_none] at hf
    have hmem : x.val ∈ List.range p := List.mem_range.mpr (ZMod.val_lt x)
    apply hf x.val hmem
    apply decide_eq_true
    rw [ZMod.natCast_rightInverse x]
    exact hx
  | some r =>
    refine ⟨((r : ZMod p)), rfl, ?_⟩
    have h1 := List.find?_some hf
    simp only [decide_eq_true_eq] at h1
    exact h1

/-- C5: round-trip of the Edwards point codec. For every point `(x, y)`
satisfying the curve equation over a prime field `ZMod p` with `p` odd,
`p < 2^255` and nondegenerate curve constants `a ≠ d`,
`edwardsDecompress (edwardsCompress (x, y)) = (x, y)`. -/
theorem edwards_compress_decompress_roundtrip (p : ℕ) (hp : Nat.Prime p)
    (hodd : p % 2 = 1) (hlt : p < 2 ^ 255) (a d x y : ZMod p) (had : a ≠ d)
    (hcurve : a * x * x + y * y = 1 + d * x * x * y * y) :
    (edwardsCompress p a d (x, y)).bind (edwardsDecompress p a d) = some (x, y) := by
  haveI : Fact (Nat.Prime p) := ⟨hp⟩
  have hcomp : edwardsCompress p a d (x, y) = some ((x.val % 2) * 2 ^ 255 + y.val) := by
    unfold edwardsCompress
    exact if_pos hcurve
  rw [hcomp, Option.some_bind]
  have hyv : y.val < 2 ^ 255 := lt_trans (ZMod.val_lt y) hlt
  have hvmod : ((x.val % 2) * 2 ^ 255 + y.val) % 2 ^ 255 = y.val := by
    rw [mul_comm (x.val % 2) (2 ^ 255), Nat.mul_add_mod, Nat.mod_eq_of_lt hyv]
  have hvdiv : ((x.val % 2) * 2 ^ 255 + y.val) / 2 ^ 255 = x.val % 2 := by
    rw [mul_comm (x.val % 2) (2 ^ 255), Nat.mul_add_div (by positivity),
      Nat.div_eq_of_lt hyv, Nat.add_zero]
  unfold edwardsDecompress
  rw [hvmod, hvdiv, ZMod.natCast_rightInverse y]
  have hden : d * y * y - a ≠ 0 := by
    intro h0
    have hdyy : d * y * y = a := by
      have := sub_eq_zero.mp h0
      exact this
    have hy2 : y * y = 1 := by
      have hxx : d * x * x * y * y = a * x * x := by
        calc d * x * x * y * y = (d * y * y) * x * x := by ring
        _ = a * x * x := by rw [hdyy]
      linear_combination hcurve + hxx
    have : d = a := by
      calc d = d * (y * y) := by rw [hy2, mul_one]
      _ = d * y * y := by ring
      _ = a := hdyy
    exact had this.symm
  have hx2 : (y * y - 1) * (d * y * y - a)⁻¹ = x * x := by
    have h1 : y * y - 1 = x * x * (d * y * y - a) := by linear_combination hcurve
    rw [h1, mul_assoc, mul_inv_cancel₀ hden, mul_one]
  rw [hx2]
  obtain ⟨s, hs, hss⟩ := squareRootModPrime_of_sq x rfl
  rw [hs]
  show some (if s.val % 2 = x.val % 2 then s else -s, y) = some (x, y)
  have hsx : s = x ∨ s = -x := mul_self_eq_mul_self_iff.mp hss
  by_cases hx0 : x = 0
  · have hs0 : s = 0 := by
      rw [hx0] at hss
      simpa [mul_self_eq_zero] using hss
    rw [hs0, hx0]
    simp
  · rcases hsx with hsx | hsx
    · rw [hsx, if_pos rfl]
    · have hvne : x.val ≠ 0 := fun hc => hx0 ((ZMod.val_eq_zero x).mp hc)
      have hvlt : x.val < p := ZMod.val_lt x
      have hsval : s.val = p - x.val := by
        rw [hsx, ZMod.neg_val, if_neg hx0]
      have hne : ¬ (s.val % 2 = x.val % 2) := by
        rw [hsval]
        omega
      rw [if_neg hne, hsx, neg_neg]

/-- Witness for C5 at `p = 13`, curve constants `a = 1`, `d = 2` and the
valid point `(0, 1)`. -/
theorem edwards_compress_decompress_roundtrip_witness :
    Nat.Prime 13 ∧ ((1 : ZMod 13) ≠ 2) ∧
    ((1 : ZMod 13) * 0 * 0 + 1 * 1 = 1 + 2 * 0 * 0 * 1 * 1) ∧
    (edwardsCompress 13 1 2 (0, 1)).bind (edwardsDecompress 13 1 2) = some (0, 1) :=
  ⟨by norm_num, by decide, by decide,
    edwards_compress_decompress_roundtrip 13 (by norm_num) (by norm_num)
      (by norm_num) 1 2 0 1 (by decide) (by decide)⟩

/-! ## claim theorems for `decryptEventLog` (C7) and `concatenateThenHash` (C8) -/

/-- C7: `decryptEventLog` throws the unknown-transaction-type error exactly
for types absent from the configured allowed set; for an allowed type with
offsets `(st, en)` it decompresses exactly the `publicInputs` entries at
positions `st` (inclusive) to `en` (exclusive) in order, decrypts that point
sequence, and brute-forces the `i`-th decrypted point with `guessers i`,
returning one recovered plaintext per decrypted point in order; when the
decryption returns one point per masked point (`cs.length - 1` outputs, the
ciphertext block minus its leading ephemeral point), the result has exactly
`(en - st) - 1` entries. -/
theorem decryptEventLog_spec {Pt Msg R G : Type}
    (ALLOWED : String → Option (ℕ × ℕ)) (decompressFn : ℕ → Pt)
    (decFn : List Pt → List Msg) (bruteForceFn : Msg → G → R)
    (publicInputs : ℕ → ℕ) (type : String) (guessers : ℕ → G) :
    (ALLOWED type = none →
      decryptEventLog ALLOWED decompressFn decFn bruteForceFn publicInputs type guessers =
        Except.error unknownTypeMsg)
    ∧ (∀ st en, ALLOWED type = some (st, en) →
        decryptEventLog ALLOWED decompressFn decFn bruteForceFn publicInputs type guessers =
          Except.ok
            (((decFn ((List.range' st (en - st)).map
                fun i => decompressFn (publicInputs i))).enum).map
              fun im => bruteForceFn im.2 (guessers im.1))
        ∧ (((decFn ((List.range' st (en - st)).map
                fun i => decompressFn (publicInputs i))).enum).map
              fun im => bruteForceFn im.2 (guessers im.1)).length =
            (decFn ((List.range' st (en - st)).map
                fun i => decompressFn (publicInputs i))).length
        ∧ ((decFn ((List.range' st (en - st)).map
                fun i => decompressFn (publicInputs i))).length = (en - st) - 1 →
            (((decFn ((List.range' st (en - st)).map
                fun i => decompressFn (publicInputs i))).enum).map
              fun im => bruteForceFn im.2 (guessers im.1)).length = (en - st) - 1)) := by
  constructor
  · intro hnone
    unfold decryptEventLog
    rw [hnone]
  · intro st en hsome
    refine ⟨?_, ?_, ?_⟩
    · unfold decryptEventLog
      rw [hsome]
    · simp
    · intro hlen
      simp [hlen]

/-- Witness for C7: an allowed type with offsets `(6, 9)`, identity
decompression, `dec = tail` (one output per masked point) and a trivial
brute force recovering the point itself. -/
theorem decryptEventLog_spec_witness :
    (fun t : String => if t = "Transfer" then some ((6 : ℕ), (9 : ℕ)) else none) "Transfer"
        = some (6, 9)
    ∧ decryptEventLog (fun t => if t = "Transfer" then some (6, 9) else none)
        (id : ℕ → ℕ) (fun cs => cs.tail) (fun (m : ℕ) (_ : ℕ) => m)
        (id : ℕ → ℕ) "Transfer" (fun _ => 0) = Except.ok [7, 8] :=
  ⟨by decide,
    ((decryptEventLog_spec (fun t => if t = "Transfer" then some (6, 9) else none)
      (id : ℕ → ℕ) (fun cs => cs.tail) (fun (m : ℕ) (_ : ℕ) => m)
      (id : ℕ → ℕ) "Transfer" (fun _ => 0)).2 6 9 (by decide)).1⟩

/-- C8: `concatenateThenHash` computes one of exactly two hashes chosen by
configuration: when `HASH_TYPE` is `'mimc'` in the config or the environment
it returns the MiMC hash of its arguments encoded as a `0x`-prefixed
64-hex-character string (66 characters total, given that the hash value fits
in 64 hex digits, as a field element does), and otherwise the SHA hash of
its arguments; the branch taken is `usesMimc cfg env`, a function of the
configuration alone, so the choice does not depend on the inputs. -/
theorem concatenateThenHash_selection (cfgHashType : String)
    (envHashType : Option String) (mimcHashFn : List ℕ → ℕ)
    (shaHashFn : List ℕ → List Char) (items : List ℕ) :
    ((cfgHashType = "mimc" ∨ envHashType = some "mimc") →
      concatenateThenHash cfgHashType envHashType mimcHashFn shaHashFn items =
        '0' :: 'x' :: jsPadStart64 (jsToStringBase16 (mimcHashFn items))
      ∧ (mimcHashFn items < 16 ^ 64 →
          (concatenateThenHash cfgHashType envHashType mimcHashFn shaHashFn items).length
            = 66))
    ∧ (¬ (cfgHashType = "mimc" ∨ envHashType = some "mimc") →
        concatenateThenHash cfgHashType envHashType mimcHashFn shaHashFn items =
          shaHashFn items)
    ∧ concatenateThenHash cfgHashType envHashType mimcHashFn shaHashFn items =
        (if usesMimc cfgHashType envHashType then
          '0' :: 'x' :: jsPadStart64 (jsToStringBase16 (mimcHashFn items))
        else shaHashFn items) := by
  refine ⟨?_, ?_, ?_⟩
  · intro hsel
    have he : concatenateThenHash cfgHashType envHashType mimcHashFn shaHashFn items =
        '0' :: 'x' :: jsPadStart64 (jsToStringBase16 (mimcHashFn items)) := by
      unfold concatenateThenHash
      exact if_pos hsel
    refine ⟨he, ?_⟩
    intro hfit
    rw [he]
    have hlen : (jsToStringBase16 (mimcHashFn items)).length ≤ 64 :=
      jsToStringBase16_length_le (by norm_num) hfit
    simp only [List.length_cons]
    rw [jsPadStart64_length hlen]
  · intro hsel
    unfold concatenateThenHash
    exact if_neg hsel
  · unfold concatenateThenHash usesMimc
    by_cases hsel : cfgHashType = "mimc" ∨ envHashType = some "mimc"
    · rw [if_pos hsel, if_pos (by simpa using hsel)]
    · rw [if_neg hsel, if_neg (by simpa using hsel)]

/-- Witness for C8: the MiMC branch under `config.HASH_TYPE = 'mimc'` and the
SHA branch under `'sha'` with an unset environment variable. -/
theorem concatenateThenHash_selection_witness :
    (("mimc" : String) = "mimc" ∨ (none : Option String) = some "mimc")
    ∧ concatenateThenHash "mimc" none (fun _ => 5) (fun _ => []) [1, 2] =
        '0' :: 'x' :: jsPadStart64 (jsToStringBase16 5)
    ∧ concatenateThenHash "sha" none (fun _ => 5) (fun _ => ['a']) [1, 2] = ['a'] :=
  ⟨Or.inl rfl,
    ((concatenateThenHash_selection "mimc" none (fun _ => 5) (fun _ => []) [1, 2]).1
      (Or.inl rfl)).1,
    (concatenateThenHash_selection "sha" none (fun _ => 5) (fun _ => ['a']) [1, 2]).2.1
      (by simp)⟩

/-! ## claim theorems for the compliance `transfer` (C9, C10) -/

theorem transfer_ok_ok {Pt : Type} (env : TransferEnv Pt)
    (in0 in1 : InputCommitment) (out0 out1 : OutputCommitment)
    (receiverPublicKey senderSecretKey : ℕ)
    (hsum : ¬ (in0.value + in1.value > 0xffffffffff ∨
               out0.value + out1.value > 0xffffffffff))
    {sTD rTD : TreeData ℕ}
    (hS : getPublicKeyTreeData env.H env.senderTreeL env.senderTreeM
        (env.shaHashFn senderSecretKey) = Except.ok sTD)
    (hR : getPublicKeyTreeData env.H env.receiverTreeL env.receiverTreeM
        receiverPublicKey = Except.ok rTD) :
    transfer env in0 in1 out0 out1 receiverPublicKey senderSecretKey =
      if sTD.siblingPath.head? ≠ rTD.siblingPath.head? then
        ([ChainAction.chainRead, ChainAction.chainRead], Except.error rootsMismatchMsg)
      else if (env.getSiblingPath in0.commitment in0.commitmentIndex).head? ≠
          (env.getSiblingPath in1.commitment in1.commitmentIndex).head? then
        ([ChainAction.chainRead, ChainAction.chainRead, ChainAction.chainRead,
          ChainAction.chainRead], Except.error sibRootsMismatchMsg)
      else
        ([ChainAction.chainRead, ChainAction.chainRead, ChainAction.chainRead,
          ChainAction.chainRead, ChainAction.computeWitness, ChainAction.generateProof,
          ChainAction.sendTransaction, ChainAction.chainRead], Except.ok ()) := by
  unfold transfer
  rw [if_neg hsum]
  dsimp only
  rw [hS, hR]

/-- C9: the compliance ERC-20 `transfer` throws before computing any witness,
proof, or state-changing on-chain transaction whenever the sender's and
receiver's whitelist sibling paths report different roots (entry 0 of the two
paths differ), and likewise whenever the two input commitments' Merkle
sibling paths do not share a common root: in both cases it returns the
corresponding error with a trace containing only read-only contract calls —
no `computeWitness`, `generateProof` or `sendTransaction` action. -/
theorem transfer_root_check_failures {Pt : Type} (env : TransferEnv Pt)
    (in0 in1 : InputCommitment) (out0 out1 : OutputCommitment)
    (receiverPublicKey senderSecretKey : ℕ)
    (hsum : ¬ (in0.value + in1.value > 0xffffffffff ∨
               out0.value + out1.value > 0xffffffffff)) :
    (∀ sTD rTD : TreeData ℕ,
      getPublicKeyTreeData env.H env.senderTreeL env.senderTreeM
          (env.shaHashFn senderSecretKey) = Except.ok sTD →
      getPublicKeyTreeData env.H env.receiverTreeL env.receiverTreeM
          receiverPublicKey = Except.ok rTD →
      sTD.siblingPath.head? ≠ rTD.siblingPath.head? →
      transfer env in0 in1 out0 out1 receiverPublicKey senderSecretKey =
        ([ChainAction.chainRead, ChainAction.chainRead], Except.error rootsMismatchMsg)
      ∧ ChainAction.computeWitness ∉
          (transfer env in0 in1 out0 out1 receiverPublicKey senderSecretKey).1
      ∧ ChainAction.generateProof ∉
          (transfer env in0 in1 out0 out1 receiverPublicKey senderSecretKey).1
      ∧ ChainAction.sendTransaction ∉
          (transfer env in0 in1 out0 out1 receiverPublicKey senderSecretKey).1)
    ∧ (∀ sTD rTD : TreeData ℕ,
      getPublicKeyTreeData env.H env.senderTreeL env.senderTreeM
          (env.shaHashFn senderSecretKey) = Except.ok sTD →
      getPublicKeyTreeData env.H env.receiverTreeL env.receiverTreeM
          receiverPublicKey = Except.ok rTD →
      sTD.siblingPath.head? = rTD.siblingPath.head? →
      (env.getSiblingPath in0.commitment in0.commitmentIndex).head? ≠
        (env.getSiblingPath in1.commitment in1.commitmentIndex).head? →
      transfer env in0 in1 out0 out1 receiverPublicKey senderSecretKey =
        ([ChainAction.chainRead, ChainAction.chainRead, ChainAction.chainRead,
          ChainAction.chainRead], Except.error sibRootsMismatchMsg)
      ∧ ChainAction.computeWitness ∉
          (transfer env in0 in1 out0 out1 receiverPublicKey senderSecretKey).1
      ∧ ChainAction.generateProof ∉
          (transfer env in0 in1 out0 out1 receiverPublicKey senderSecretKey).1
      ∧ ChainAction.sendTransaction ∉
          (transfer env in0 in1 out0 out1 receiverPublicKey senderSecretKey).1) := by
  constructor
  · intro sTD rTD hS hR hne
    have heq := transfer_ok_ok env in0 in1 out0 out1 receiverPublicKey senderSecretKey
      hsum hS hR
    rw [if_pos hne] at heq
    refine ⟨heq, ?_, ?_, ?_⟩ <;> rw [heq] <;> decide
  · intro sTD rTD hS hR hroots hne
    have heq := transfer_ok_ok env in0 in1 out0 out1 receiverPublicKey senderSecretKey
      hsum hS hR
    rw [if_neg (by simpa using hroots), if_pos hne] at heq
    refine ⟨heq, ?_, ?_, ?_⟩ <;> rw [heq] <;> decide

/-- C10: the compliance ERC-20 `transfer` enforces the value limit — if the
sum of the two input commitment values or the sum of the two output
commitment values exceeds `0xffffffffff = 2^40 - 1`, it throws the
input-too-large error with an empty action trace, i.e. before any proof
computation or blockchain interaction of any kind. -/
theorem transfer_value_limit {Pt : Type} (env : TransferEnv Pt)
    (in0 in1 : InputCommitment) (out0 out1 : OutputCommitment)
    (receiverPublicKey senderSecretKey : ℕ)
    (h : in0.value + in1.value > 0xffffffffff ∨
         out0.value + out1.value > 0xffffffffff) :
    transfer env in0 in1 out0 out1 receiverPublicKey senderSecretKey =
      ([], Except.error valuesTooLargeMsg) := by
  unfold transfer
  exact if_pos h

/-- Witness for C9: a snapshot pair whose whitelist roots differ (1 vs 2)
makes `transfer` throw the roots-mismatch error after two reads, and a
sibling-path service reporting different roots for the two input commitments
makes it throw the common-root error after four reads. -/
theorem transfer_root_check_failures_witness :
    transfer (⟨3, fun _ => 0, fun _ => 0, 0, 0, fun _ _ => ([] : List ℕ), fun _ => 9,
        fun _ => 1, fun _ => 9, fun _ => 2, fun _ _ => [0]⟩ : TransferEnv ℕ)
      ⟨1, 0, 5, 0⟩ ⟨1, 0, 6, 0⟩ ⟨1, 0⟩ ⟨1, 0⟩ 7 6 =
        ([ChainAction.chainRead, ChainAction.chainRead], Except.error rootsMismatchMsg)
    ∧ transfer (⟨3, fun _ => 0, fun _ => 0, 0, 0, fun _ _ => ([] : List ℕ), fun _ => 9,
        fun _ => 1, fun _ => 9, fun _ => 1, fun c _ => [c]⟩ : TransferEnv ℕ)
      ⟨1, 0, 5, 0⟩ ⟨1, 0, 6, 0⟩ ⟨1, 0⟩ ⟨1, 0⟩ 7 6 =
        ([ChainAction.chainRead, ChainAction.chainRead, ChainAction.chainRead,
          ChainAction.chainRead], Except.error sibRootsMismatchMsg) :=
  ⟨((transfer_root_check_failures
      (⟨3, fun _ => 0, fun _ => 0, 0, 0, fun _ _ => ([] : List ℕ), fun _ => 9,
        fun _ => 1, fun _ => 9, fun _ => 2, fun _ _ => [0]⟩ : TransferEnv ℕ)
      ⟨1, 0, 5, 0⟩ ⟨1, 0, 6, 0⟩ ⟨1, 0⟩ ⟨1, 0⟩ 7 6 (by decide)).1
      ⟨2, [1, 1, 1, 1]⟩ ⟨2, [2, 2, 2, 2]⟩ rfl rfl (by decide)).1,
    ((transfer_root_check_failures
      (⟨3, fun _ => 0, fun _ => 0, 0, 0, fun _ _ => ([] : List ℕ), fun _ => 9,
        fun _ => 1, fun _ => 9, fun _ => 1, fun c _ => [c]⟩ : TransferEnv ℕ)
      ⟨1, 0, 5, 0⟩ ⟨1, 0, 6, 0⟩ ⟨1, 0⟩ ⟨1, 0⟩ 7 6 (by decide)).2
      ⟨2, [1, 1, 1, 1]⟩ ⟨2, [1, 1, 1, 1]⟩ rfl rfl rfl (by decide)).1⟩

/-- Witness for C10: an input value sum of `2^40 + 1 > 0xffffffffff` makes
`transfer` throw immediately with an empty action trace. -/
theorem transfer_value_limit_witness :
    (2 ^ 40 + 1 > 0xffffffffff ∨ (0 : ℕ) + 0 > 0xffffffffff)
    ∧ transfer (⟨0, fun _ => 0, fun _ => 0, 0, 0, fun _ _ => ([] : List ℕ), fun _ => 0,
        fun _ => 0, fun _ => 0, fun _ => 0, fun _ _ => []⟩ : TransferEnv ℕ)
      ⟨2 ^ 40, 0, 0, 0⟩ ⟨1, 0, 0, 0⟩ ⟨0, 0⟩ ⟨0, 0⟩ 1 2 =
        ([], Except.error valuesTooLargeMsg) :=
  ⟨by norm_num,
    transfer_value_limit
      (⟨0, fun _ => 0, fun _ => 0, 0, 0, fun _ _ => ([] : List ℕ), fun _ => 0,
        fun _ => 0, fun _ => 0, fun _ => 0, fun _ _ => []⟩ : TransferEnv ℕ)
      ⟨2 ^ 40, 0, 0, 0⟩ ⟨1, 0, 0, 0⟩ ⟨0, 0⟩ ⟨0, 0⟩ 1 2 (by norm_num)⟩
